import Mathlib

/-!
Verification of the FHEVM Example Hub code-generation scripts.

This file gives a shallow embedding, in Lean 4, of the three TypeScript
command-line utilities of the repository (`scripts/create-example.ts`,
`scripts/generate-docs.ts`, `scripts/create-category.ts`) and proves
properties of that embedding.

Modelling conventions:
* JavaScript strings are modelled by `String` / `List Char`; only the ASCII
  fragment of the JS `\s`, `\w`, `toUpperCase`/`toLowerCase` classes is
  modelled (all catalog data and templates are ASCII).
* The filesystem is modelled by the ordered list of write events a run
  performs: a path is a list of segments (`FsPath`), a file write is a
  `(FsPath, String)` pair, and a `mkdirSync` call is recorded by its path.
* `process.exit(1)` is modelled by an `Except`-style error carrying the
  exit code and the messages printed to standard error.
* The regular-expression scans of `generate-docs.ts` are modelled by
  explicit character-list scanners that reproduce the left-to-right,
  leftmost-match, backtracking semantics of the concrete JS regexes used
  (these are simple enough that their full behaviour can be spelled out).
-/

namespace FhevmHub

set_option maxRecDepth 8000

/-! ## Character classes (ASCII fragment of the JS semantics) -/

/-- ASCII fragment of the JS whitespace class `\s` (space, tab, newline,
carriage return, vertical tab, form feed). -/
def isJsWs (c : Char) : Bool :=
  c = ' ' || c = '\t' || c = '\n' || c = '\r' || c = '\x0b' || c = '\x0c'

/-- JS line terminators, the characters not matched by `.` in a regex. -/
def isLineTerm (c : Char) : Bool :=
  c = '\n' || c = '\r'

/-- The JS regex word class `\w` = `[A-Za-z0-9_]`. -/
def isWordChar (c : Char) : Bool :=
  ('a' ≤ c && c ≤ 'z') || ('A' ≤ c && c ≤ 'Z') || ('0' ≤ c && c ≤ '9') || c = '_'

/-- Model of `String.prototype.toUpperCase`, per character, on the ASCII fragment. -/
def jsToUpperChar (c : Char) : Char :=
  if 97 ≤ c.toNat ∧ c.toNat ≤ 122 then Char.ofNat (c.toNat - 32) else c

/-- Model of `String.prototype.toLowerCase`, per character, on the ASCII fragment. -/
def jsToLowerChar (c : Char) : Char :=
  if 65 ≤ c.toNat ∧ c.toNat ≤ 90 then Char.ofNat (c.toNat + 32) else c

/-- Model of `String.prototype.trim`: strip JS whitespace from both ends. -/
def jsTrimL (l : List Char) : List Char :=
  ((l.dropWhile isJsWs).reverse.dropWhile isJsWs).reverse

/-- Does `l` start with `p`?  (`String.prototype.startsWith`). -/
def startsWithL : List Char → List Char → Bool
  | _, [] => true
  | [], _ :: _ => false
  | c :: cs, p :: ps => c = p && startsWithL cs ps

/-- Does `l` contain `p` as a contiguous substring?
(`String.prototype.includes`). -/
def hasInfixL : List Char → List Char → Bool
  | l, p =>
    if startsWithL l p then true
    else match l with
      | [] => false
      | _ :: cs => hasInfixL cs p

/-- Does `l` end with `p`?  (`String.prototype.endsWith`). -/
def endsWithL (l p : List Char) : Bool :=
  startsWithL l.reverse p.reverse

/-- Model of `String.prototype.split(sep)` for a one-character separator. -/
def splitOnCharL (sep : Char) : List Char → List (List Char)
  | [] => [[]]
  | c :: cs =>
    if c = sep then [] :: splitOnCharL sep cs
    else match splitOnCharL sep cs with
      | [] => [[c]]
      | w :: ws => (c :: w) :: ws

/-! ## The display-identifier transform (`convertToCamelCase`) -/

/-- One step of `convertToCamelCase`:
`word.charAt(0).toUpperCase() + word.slice(1)` (the same expression is used
for every segment, first or not). -/
def capWordL : List Char → List Char
  | [] => []
  | c :: cs => jsToUpperChar c :: cs

/-- The body of `convertToCamelCase` on character lists:
`str.split("-").map(capitalize first).join("")`. -/
def camelL (l : List Char) : List Char :=
  ((splitOnCharL '-' l).map capWordL).flatten

/-- Function `convertToCamelCase` from `scripts/create-example.ts`. -/
def convertToCamelCase (s : String) : String :=
  String.mk (camelL s.data)

/-- Kebab-case assembly: the segments joined by single dashes (used to state
what `convertToCamelCase` does to a kebab-case input). -/
def interDash : List (List Char) → List Char
  | [] => []
  | [w] => w
  | w :: ws => w ++ '-' :: interDash ws

/-! ## Paths and the example catalog (`scripts/create-example.ts`) -/

/-- A filesystem path, as its list of segments; `path.join(a, b)` is
`a ++ [b]` (and a relative dir argument like `".github/workflows"`
contributes its two segments). -/
abbrev FsPath := List String

/-- The `interface ExampleConfig` of `scripts/create-example.ts`. -/
structure ExampleConfig where
  name : String
  description : String
  category : String
  features : List String
deriving DecidableEq, Repr

/-- The static `EXAMPLE_CATEGORIES` table, as an association list in
declaration order (the JS object literal is string-keyed with unique
literal keys; lookups are modelled by association-list lookup). -/
def EXAMPLE_CATEGORIES : List (String × ExampleConfig) :=
  [("encrypted-counter",
    ⟨"Encrypted Counter", "Basic FHE counter demonstrating simple encrypted arithmetic",
     "basic", ["addition", "subtraction", "encryption"]⟩),
   ("access-control",
    ⟨"Access Control System", "Advanced access control demonstrating permission management",
     "access-control", ["role-based-permissions", "grant-access", "revoke-access"]⟩),
   ("encrypted-arithmetic",
    ⟨"Encrypted Arithmetic", "Multiple encrypted types with various arithmetic operations",
     "arithmetic", ["addition", "subtraction", "multiplication", "comparison"]⟩),
   ("user-decryption",
    ⟨"User Decryption", "User-initiated decryption of encrypted values",
     "decryption", ["user-decrypt", "authorized-decryption"]⟩),
   ("public-decryption",
    ⟨"Public Decryption", "Public decryption of encrypted contract results",
     "decryption", ["public-decrypt", "result-publication"]⟩)]

/-- The text `Object.keys(EXAMPLE_CATEGORIES).join(", ")`. -/
def availableExamplesLine : String :=
  String.intercalate ", " (EXAMPLE_CATEGORIES.map Prod.fst)

/-! ## Generated file contents (the string templates) -/

/-- Function `generateContractTemplate` from `scripts/create-example.ts`: the full
generated Solidity source, with `${exampleName}`, `${category}` and
`${convertToCamelCase(exampleName)}` spliced in. -/
def generateContractTemplate (exampleName category : String) : String :=
  "// SPDX-License-Identifier: BSD-3-Clause-Clear\npragma solidity ^0.8.24;\n\n"
  ++ "import \"@fhevm/solidity/lib/FHE.sol\";\n"
  ++ "import \x7b ZamaEthereumConfig \x7d from \"@fhevm/solidity/config/ZamaConfig.sol\";\n\n"
  ++ "/**\n * @title " ++ exampleName ++ "\n * @notice Example demonstrating " ++ category
  ++ " patterns with FHEVM\n * @dev This contract showcases how to use encrypted types and operations\n */\ncontract "
  ++ convertToCamelCase exampleName ++ " is ZamaEthereumConfig \x7b\n"
  ++ "    /**\n     * @notice Example encrypted storage variable\n     */\n    euint32 private encryptedValue;\n\n"
  ++ "    /**\n     * @notice Initialize with encrypted value\n     * @param initialValue The initial encrypted value\n     */\n    constructor() \x7b\n        encryptedValue = FHE.asEuint32(0);\n    \x7d\n\n"
  ++ "    /**\n     * @notice Get the encrypted value\n     * @return The encrypted value stored in contract\n     */\n    function getEncryptedValue() external view returns (euint32) \x7b\n        return encryptedValue;\n    \x7d\n\n"
  ++ "    /**\n     * @notice Set encrypted value\n     * @param newValue The new encrypted value to store\n     * @param inputProof Proof for input encryption\n     */\n    function setEncryptedValue(externalEuint32 newValue, bytes calldata inputProof) external \x7b\n        euint32 encryptedInput = FHE.fromExternal(newValue, inputProof);\n        encryptedValue = encryptedInput;\n        FHE.allowThis(encryptedValue);\n    \x7d\n\n"
  ++ "    /**\n     * @notice Add to encrypted value\n     * @param addAmount Amount to add\n     * @param inputProof Proof for input encryption\n     */\n    function addToValue(externalEuint32 addAmount, bytes calldata inputProof) external \x7b\n        euint32 encryptedAmount = FHE.fromExternal(addAmount, inputProof);\n        encryptedValue = FHE.add(encryptedValue, encryptedAmount);\n        FHE.allowThis(encryptedValue);\n    \x7d\n\x7d\n"

/-- Function `generateTestTemplate` from `scripts/create-example.ts`. -/
def generateTestTemplate (contractName : String) : String :=
  "import \x7b expect \x7d from \"chai\";\nimport \x7b ethers \x7d from \"hardhat\";\nimport \x7b Contract, Signer \x7d from \"ethers\";\n\n"
  ++ "/**\n * @test " ++ contractName ++ " Test Suite\n * @chapter basic\n * @description Complete test coverage for the "
  ++ contractName ++ " contract\n */\ndescribe(\"" ++ contractName ++ "\", function () \x7b\n"
  ++ "    let contract: Contract;\n    let owner: Signer;\n\n"
  ++ "    before(async function () \x7b\n        const [ownerSigner] = await ethers.getSigners();\n        owner = ownerSigner;\n\n        const ContractFactory = await ethers.getContractFactory(\""
  ++ contractName ++ "\");\n        contract = await ContractFactory.deploy();\n        await contract.waitForDeployment();\n    \x7d);\n\n"
  ++ "    /**\n     * @test Deployment\n     * @category basic\n     */\n    it(\"should deploy successfully\", async function () \x7b\n        expect(contract.target).to.not.equal(ethers.ZeroAddress);\n    \x7d);\n\n"
  ++ "    /**\n     * @test Basic operations\n     * @category basic\n     */\n    it(\"should get encrypted value\", async function () \x7b\n        const value = await contract.getEncryptedValue();\n        expect(value).to.not.be.undefined;\n    \x7d);\n\x7d);\n"

/-- Function `generateHardhatConfigTemplate` from `scripts/create-example.ts`
(the generated text contains a literal backtick template with a literal
`${INFURA_API_KEY}`, both escaped in the JS source). -/
def generateHardhatConfigTemplate : String :=
  "import \x7b HardhatUserConfig \x7d from \"hardhat/config\";\nimport \"@nomiclabs/hardhat-ethers\";\nimport \"@nomiclabs/hardhat-etherscan\";\nimport \"hardhat-deploy\";\nimport \"hardhat-gas-reporter\";\n\n"
  ++ "require(\"dotenv\").config();\n\n"
  ++ "const MNEMONIC = process.env.MNEMONIC || \"test test test test test test test test test test test junk\";\nconst INFURA_API_KEY = process.env.INFURA_API_KEY || \"\";\n\n"
  ++ "const config: HardhatUserConfig = \x7b\n    solidity: \x7b\n        version: \"0.8.24\",\n        settings: \x7b\n            optimizer: \x7b enabled: true, runs: 200 \x7d\n        \x7d\n    \x7d,\n    networks: \x7b\n        localhost: \x7b url: \"http://127.0.0.1:8545\", chainId: 1337 \x7d,\n        sepolia: \x7b\n            url: `https://sepolia.infura.io/v3/$\x7bINFURA_API_KEY\x7d`,\n            accounts: \x7b mnemonic: MNEMONIC \x7d,\n            chainId: 11155111\n        \x7d\n    \x7d\n\x7d;\n\nexport default config;\n"

/-- The text `JSON.stringify(tsconfig, null, 2)` for the fixed tsconfig object of
`generateExample`. -/
def tsconfigContent : String :=
  "\x7b\n  \"compilerOptions\": \x7b\n    \"target\": \"ES2020\",\n    \"module\": \"commonjs\",\n    \"lib\": [\n      \"ES2020\"\n    ],\n    \"outDir\": \"./dist\",\n    \"rootDir\": \"./\",\n    \"strict\": true,\n    \"esModuleInterop\": true,\n    \"skipLibCheck\": true,\n    \"forceConsistentCasingInFileNames\": true\n  \x7d,\n  \"include\": [\n    \"**/*.ts\"\n  ],\n  \"exclude\": [\n    \"node_modules\",\n    \"dist\"\n  ]\n\x7d"

/-- The text `JSON.stringify(packageJson, null, 2)` for the package manifest of
`generateExample` (the spliced key and description are plain ASCII text in
the catalog, so JSON string escaping is the identity on them). -/
def packageJsonContent (exampleKey description : String) : String :=
  "\x7b\n  \"name\": \"fhevm-example-" ++ exampleKey
  ++ "\",\n  \"version\": \"1.0.0\",\n  \"description\": \"" ++ description
  ++ "\",\n  \"scripts\": \x7b\n    \"compile\": \"hardhat compile\",\n    \"test\": \"hardhat test\",\n    \"deploy\": \"hardhat deploy --network sepolia\"\n  \x7d,\n  \"dependencies\": \x7b\n    \"@fhevm/solidity\": \"^0.3.0\",\n    \"@openzeppelin/contracts\": \"^5.0.1\",\n    \"ethers\": \"^6.10.0\"\n  \x7d,\n  \"devDependencies\": \x7b\n    \"@nomiclabs/hardhat-ethers\": \"^2.2.3\",\n    \"@types/chai\": \"^4.3.11\",\n    \"@types/mocha\": \"^10.0.6\",\n    \"chai\": \"^4.3.10\",\n    \"hardhat\": \"^2.19.4\",\n    \"hardhat-deploy\": \"^0.11.45\",\n    \"typescript\": \"^5.3.3\"\n  \x7d\n\x7d"

/-- The README written by `generateExample`. -/
def readmeContent (config : ExampleConfig) : String :=
  "# " ++ config.name ++ "\n\n" ++ config.description ++ "\n\n## Features\n\n"
  ++ String.intercalate "\n" (config.features.map (fun f => "- " ++ f))
  ++ "\n\n## Quick Start\n\n```bash\nnpm install\nnpm run compile\nnpm run test\n```\n\n## Deployment\n\n```bash\nnpm run deploy\n```\n"

/-! ## `generateExample` -/

/-- Failure of a run via `process.exit`: the standard-error lines printed
before exiting, and the exit code. -/
structure ExitError where
  stderr : List String
  code : Nat
deriving DecidableEq, Repr

/-- The externally observable side effects of a successful
`generateExample` run: the directories requested from `mkdirSync` and the
file writes, both in program order. -/
structure GenOut where
  dirs : List FsPath
  files : List (FsPath × String)
deriving DecidableEq, Repr

/-- Function `createProjectStructure`: the eight seed directories. -/
def projectSeedDirs (projectPath : FsPath) : List FsPath :=
  [projectPath ++ ["contracts"], projectPath ++ ["test"], projectPath ++ ["deploy"],
   projectPath ++ ["tasks"], projectPath ++ ["scripts"], projectPath ++ ["docs"],
   projectPath ++ [".github", "workflows"], projectPath ++ [".vscode"]]

/-- Function `generateExample` from `scripts/create-example.ts`.  An unknown key
prints two error lines and exits with status 1 before any filesystem
side effect; a known key creates the seed directories and writes the six
files, in program order. -/
def generateExample (exampleKey : String) (outputDir : FsPath) : Except ExitError GenOut :=
  match List.lookup exampleKey EXAMPLE_CATEGORIES with
  | none =>
    Except.error ⟨["Unknown example: " ++ exampleKey,
                   "Available examples: " ++ availableExamplesLine], 1⟩
  | some config =>
    let projectName := convertToCamelCase exampleKey
    let projectPath := outputDir ++ [projectName]
    Except.ok ⟨projectSeedDirs projectPath,
      [(projectPath ++ ["contracts", projectName ++ ".sol"],
        generateContractTemplate config.name config.category),
       (projectPath ++ ["test", projectName ++ ".test.ts"],
        generateTestTemplate projectName),
       (projectPath ++ ["hardhat.config.ts"], generateHardhatConfigTemplate),
       (projectPath ++ ["tsconfig.json"], tsconfigContent),
       (projectPath ++ ["package.json"], packageJsonContent exampleKey config.description),
       (projectPath ++ ["README.md"], readmeContent config)]⟩

/-- Directories created by a run (none on the error path: the key check
happens before any side effect). -/
def genDirsOf : Except ExitError GenOut → List FsPath
  | Except.error _ => []
  | Except.ok o => o.dirs

/-- Files written by a run (none on the error path). -/
def genFilesOf : Except ExitError GenOut → List (FsPath × String)
  | Except.error _ => []
  | Except.ok o => o.files

/-- The exit status forced by the run itself: `some code` when the run
called `process.exit code`, `none` when it returned normally. -/
def exitOf : Except ExitError GenOut → Option Nat
  | Except.error e => some e.code
  | Except.ok _ => none

/-- Standard-error lines printed by the run. -/
def stderrOf : Except ExitError GenOut → List String
  | Except.error e => e.stderr
  | Except.ok _ => []

/-! ## The category script (`scripts/create-category.ts`) -/

/-- The `interface Category` of `scripts/create-category.ts`. -/
structure CategoryConfig where
  name : String
  description : String
  examples : List String
  concepts : List String
deriving DecidableEq, Repr

/-- The static `CATEGORIES` table, in declaration order. -/
def CATEGORIES : List (String × CategoryConfig) :=
  [("basic-operations",
    ⟨"Basic Operations", "Fundamental FHE operations and patterns",
     ["encrypted-counter", "encrypted-arithmetic"],
     ["Addition", "Subtraction", "Multiplication", "Storage"]⟩),
   ("encryption-patterns",
    ⟨"Encryption Patterns", "Different approaches to encrypting data",
     ["single-value-encryption", "multi-value-encryption"],
     ["Encryption", "Encrypted Types", "Storage", "Permissions"]⟩),
   ("access-control",
    ⟨"Access Control", "Managing permissions and access to encrypted data",
     ["access-control-system", "role-based-permissions"],
     ["Authorization", "Roles", "Permissions", "Access Grants"]⟩),
   ("decryption-patterns",
    ⟨"Decryption Patterns", "How to decrypt and use encrypted results",
     ["user-decryption", "public-decryption"],
     ["User Decryption", "Public Decryption", "Result Publication"]⟩),
   ("advanced-patterns",
    ⟨"Advanced Patterns", "Complex scenarios combining multiple FHE concepts",
     ["inventory-management", "blind-auction"],
     ["Complex Computations", "Multi-Role Systems", "Event Logging", "State Management"]⟩)]

/-- The `CATEGORY.md` text written by `generateCategoryDocs`. -/
def generateCategoryDocs (category : CategoryConfig) : String :=
  "# " ++ category.name ++ "\n\n" ++ category.description ++ "\n\n"
  ++ "## Concepts Covered\n\n"
  ++ String.join (category.concepts.map (fun concept => "- " ++ concept ++ "\n"))
  ++ "\n"
  ++ "## Examples\n\n"
  ++ String.join (category.examples.map (fun ex =>
      "- [" ++ ex ++ "](../examples/" ++ ex ++ "/README.md)\n"))
  ++ "\n"
  ++ "## Learning Path\n\nStart with the first example and work through each one to build your understanding of these concepts.\n"

/-- The per-category `README.md` index text built inside
`createCategoryStructure`. -/
def categoryIndexContent (category : CategoryConfig) : String :=
  "# " ++ category.name ++ "\n\n" ++ category.description ++ "\n\n## Contents\n\n"
  ++ String.join (category.examples.map (fun ex =>
      "- [" ++ ex ++ "](" ++ ex ++ "/)\n"))

/-- Observable effects of one `createCategoryStructure` call: directories
created, files written, standard-error lines.  The function never calls
`process.exit`. -/
structure CatOut where
  dirs : List FsPath
  files : List (FsPath × String)
  errs : List String
deriving DecidableEq, Repr

/-- Function `createCategoryStructure` from `scripts/create-category.ts`: an unknown
key logs one error line and returns normally with no filesystem effect. -/
def createCategoryStructure (categoryKey : String) (outputDir : FsPath) : CatOut :=
  match List.lookup categoryKey CATEGORIES with
  | none => ⟨[], [], ["Unknown category: " ++ categoryKey]⟩
  | some category =>
    let categoryPath := outputDir ++ [categoryKey]
    ⟨[categoryPath],
     [(categoryPath ++ ["CATEGORY.md"], generateCategoryDocs category),
      (categoryPath ++ ["README.md"], categoryIndexContent category)],
     []⟩

/-- The `create <key>` command of `create-category.ts`: it invokes
`createCategoryStructure` and then falls off the end of `main`, so the
process exit status is 0 whether or not the key was known. -/
def cliCategoryCreate (categoryKey : String) (outputDir : FsPath) : CatOut × Nat :=
  (createCategoryStructure categoryKey outputDir, 0)

/-! ## Doc extraction (`scripts/generate-docs.ts`)

The tag regexes `/@tag\s+(.+)/` are modelled by an explicit scan with the
exact leftmost-match-with-backtracking semantics of the JS engine: at the
first position where the literal tag is followed by at least one
whitespace character, `\s+` is greedy; if some character follows the run,
`(.+)` captures from there to the end of the line; if the run extends to
the end of the string, the engine backtracks inside the run and the
capture degenerates to the last non-line-terminator whitespace character
of the run (excluding its first character); if neither exists, the engine
moves on to the next occurrence of the tag. -/

/-- The attempt of `/\s+(.+)/` at a fixed position (given the characters
following the literal tag); returns the capture group. -/
def tagAttempt (cs : List Char) : Option (List Char) :=
  if (cs.takeWhile isJsWs).isEmpty then none
  else
    match cs.dropWhile isJsWs with
    | c :: rest => some ((c :: rest).takeWhile (fun x => !(isLineTerm x)))
    | [] =>
      match ((cs.takeWhile isJsWs).drop 1).reverse.find? (fun x => !(isLineTerm x)) with
      | some x => some [x]
      | none => none

/-- Leftmost match of `/tag\s+(.+)/` over the text. -/
def findTag (tag : List Char) : List Char → Option (List Char)
  | [] => none
  | c :: cs =>
    if startsWithL (c :: cs) tag then
      match tagAttempt ((c :: cs).drop tag.length) with
      | some cap => some cap
      | none => findTag tag cs
    else findTag tag cs

/-- The idiom `match ? match[1].trim() : dflt` — the tag-extraction idiom used for
every metadata field. -/
def tagOr (dflt : String) (tag block : List Char) : String :=
  match findTag tag block with
  | none => dflt
  | some cap => String.mk (jsTrimL cap)

/-- Does every match of the tag in the block capture something that
survives `trim()`?  (Used to state when the `"general"`-default fields are
guaranteed non-empty.) -/
def tagGood (tag block : List Char) : Bool :=
  match findTag tag block with
  | none => true
  | some cap => !(jsTrimL cap).isEmpty

def titleTagL : List Char := "@title".data

def categoryTagL : List Char := "@category".data

def chapterTagL : List Char := "@chapter".data

def noticeTagL : List Char := "@notice".data

def descriptionTagL : List Char := "@description".data

/-- The `interface DocMetadata` of `scripts/generate-docs.ts`. -/
structure DocMetadata where
  name : String
  category : String
  chapter : String
  description : String
deriving DecidableEq, Repr

/-- The tail of a match of `/\/\*\*\n([\s\S]*?)\*\/\s*(contract|function)/`:
given the characters after the opening `/**\n`, the lazy body grows one
character at a time until `*/`, optional whitespace and one of the two
keywords follow; returns the captured body and the characters after the
whole match (where the global regex resumes). -/
def findBodyEnd : List Char → Option (List Char × List Char)
  | [] => none
  | c :: cs =>
    if startsWithL (c :: cs) "*/".data then
      if startsWithL (((c :: cs).drop 2).dropWhile isJsWs) "contract".data then
        some ([], ((((c :: cs).drop 2).dropWhile isJsWs)).drop 8)
      else if startsWithL (((c :: cs).drop 2).dropWhile isJsWs) "function".data then
        some ([], ((((c :: cs).drop 2).dropWhile isJsWs)).drop 8)
      else match findBodyEnd cs with
        | some (b, r) => some (c :: b, r)
        | none => none
    else match findBodyEnd cs with
      | some (b, r) => some (c :: b, r)
      | none => none

/-- All comment bodies found by the global regex of `extractSolidityDocs`,
scanning left to right (fuelled by the text length, which bounds the
number of scan steps since every step advances the position). -/
def solBlocksF : Nat → List Char → List (List Char)
  | 0, _ => []
  | _ + 1, [] => []
  | fuel + 1, c :: cs =>
    if startsWithL (c :: cs) "/**\n".data then
      match findBodyEnd ((c :: cs).drop 4) with
      | some (body, rest) => body :: solBlocksF fuel rest
      | none => solBlocksF fuel cs
    else solBlocksF fuel cs

def solBlocks (cs : List Char) : List (List Char) :=
  solBlocksF cs.length cs

/-- The per-match record construction of `extractSolidityDocs`: a record
is pushed only when `@title` matches; `@category` and `@chapter` fall back
to `"general"` and `@notice` to the empty string. -/
def mkSolRecord (commentBlock : List Char) : Option DocMetadata :=
  match findTag titleTagL commentBlock with
  | none => none
  | some cap =>
    some ⟨String.mk (jsTrimL cap),
          tagOr "general" categoryTagL commentBlock,
          tagOr "general" chapterTagL commentBlock,
          tagOr "" noticeTagL commentBlock⟩

/-- Function `extractSolidityDocs` from `scripts/generate-docs.ts` (file reading
replaced by passing the file text). -/
def extractSolidityDocs (content : String) : List DocMetadata :=
  (solBlocks content.data).filterMap mkSolRecord

/-! ### `extractTestDocs`

The line loop of `extractTestDocs` is modelled as a state machine over the
lines: `out` is the loop with no comment in progress (index `i` on a line
without `/**`), `inBlock acc` is the inner `while` accumulating
`commentBlock`, and `closed block` says the previous line contained `*/`
and closed the block, so the current line is the `testLine` under
inspection (after which the loop resumes at that very line, `i = j + 1`). -/

inductive TScan where
  | out : TScan
  | inBlock : List Char → TScan
  | closed : List Char → TScan
deriving DecidableEq, Repr

/-- How one line is treated by the top of the loop (`includes("/**")`),
starting or even immediately closing a comment block. -/
def openScan (line : List Char) : TScan :=
  if hasInfixL line "/**".data then
    if hasInfixL line "*/".data then TScan.closed line
    else TScan.inBlock (line ++ ['\n'])
  else TScan.out

/-- The match of `/it\("([^"]+)"/` anchored at the current position: the
literal `it("`, then a non-empty run of non-quote characters (`[^"]+`,
greedy), then the closing `"` (equivalently: the non-quote run does not
extend to the end, since the character stopping it can only be `"`). -/
def itMatchAt (cs : List Char) : Option (List Char) :=
  if startsWithL cs ['i', 't', '(', '"'] then
    if ((cs.drop 4).takeWhile (fun c => !(c = '"'))).isEmpty then none
    else if ((cs.drop 4).dropWhile (fun c => !(c = '"'))).isEmpty then none
    else some ((cs.drop 4).takeWhile (fun c => !(c = '"')))
  else none

/-- Leftmost match of `/it\("([^"]+)"/` over a line. -/
def findIt : List Char → Option (List Char)
  | [] => none
  | c :: cs =>
    match itMatchAt (c :: cs) with
    | some t => some t
    | none => findIt cs

/-- The record pushed by `extractTestDocs` for a closed comment block
whose following line matched the test declaration; the title is the raw
capture (not trimmed), the tags use the same fallbacks as the Solidity
side but with `@description` instead of `@notice`. -/
def mkTestRecord (commentBlock title : List Char) : DocMetadata :=
  ⟨String.mk title,
   tagOr "general" categoryTagL commentBlock,
   tagOr "general" chapterTagL commentBlock,
   tagOr "" descriptionTagL commentBlock⟩

/-- The line loop of `extractTestDocs`. -/
def testScan : TScan → List (List Char) → List DocMetadata
  | _, [] => []
  | TScan.out, line :: rest => testScan (openScan line) rest
  | TScan.inBlock acc, line :: rest =>
    if hasInfixL line "*/".data then testScan (TScan.closed (acc ++ line)) rest
    else testScan (TScan.inBlock (acc ++ line ++ ['\n'])) rest
  | TScan.closed block, line :: rest =>
    (if hasInfixL line "it(\"".data then
      match findIt line with
      | some title => [mkTestRecord block title]
      | none => []
     else [])
    ++ testScan (openScan line) rest

/-- Function `extractTestDocs` from `scripts/generate-docs.ts`:
`content.split("\n")` then the line loop. -/
def extractTestDocs (content : String) : List DocMetadata :=
  testScan TScan.out (splitOnCharL '\n' content.data)

/-! ### `generateAPIReference` -/

/-- The attempt of `/\s+(\w+)/` after the `contract` literal: at least one
whitespace character (`\s+`, greedy), then a maximal non-empty word-char
run as the capture. -/
def contractAttempt (cs : List Char) : Option (List Char) :=
  if (cs.takeWhile isJsWs).isEmpty then none
  else if ((cs.dropWhile isJsWs).takeWhile isWordChar).isEmpty then none
  else some ((cs.dropWhile isJsWs).takeWhile isWordChar)

/-- Leftmost match of `/contract\s+(\w+)/`. -/
def contractScan : List Char → Option (List Char)
  | [] => none
  | c :: cs =>
    if startsWithL (c :: cs) "contract".data then
      match contractAttempt ((c :: cs).drop 8) with
      | some n => some n
      | none => contractScan cs
    else contractScan cs

/-- The attempt of `/\s+(\w+)\s*\([^)]*\)[^{]*\{/` after the `function`
literal; returns the captured name and the characters after the whole
match. -/
def fnAttempt (cs : List Char) : Option (List Char × List Char) :=
  if (cs.takeWhile isJsWs).isEmpty then none
  else if ((cs.dropWhile isJsWs).takeWhile isWordChar).isEmpty then none
  else
    match (((cs.dropWhile isJsWs).dropWhile isWordChar).dropWhile isJsWs) with
    | '(' :: r4 =>
      match r4.dropWhile (fun c => !(c = ')')) with
      | ')' :: r5 =>
        match r5.dropWhile (fun c => !(c = '\x7b')) with
        | '\x7b' :: r6 => some ((cs.dropWhile isJsWs).takeWhile isWordChar, r6)
        | _ => none
      | _ => none
    | _ => none

/-- All captures of the global regex
`/function\s+(\w+)\s*\([^)]*\)[^{]*\{/g`, in match order, duplicates
included (the source pushes every capture with no deduplication). -/
def fnScanF : Nat → List Char → List (List Char)
  | 0, _ => []
  | _ + 1, [] => []
  | fuel + 1, c :: cs =>
    if startsWithL (c :: cs) "function".data then
      match fnAttempt ((c :: cs).drop 8) with
      | some (name, rest) => name :: fnScanF fuel rest
      | none => fnScanF fuel cs
    else fnScanF fuel cs

def apiFunctionNames (cs : List Char) : List (List Char) :=
  fnScanF cs.length cs

/-- Function `generateAPIReference` from `scripts/generate-docs.ts`, as the
markdown text it writes (the write target is handled in
`generateDocumentation`). -/
def generateAPIReference (content : String) : String :=
  let contractName := match contractScan content.data with
    | some n => String.mk n
    | none => "Contract"
  let functions := (apiFunctionNames content.data).map String.mk
  "# API Reference\n\n" ++ "## " ++ contractName ++ "\n\n"
  ++ (if functions.isEmpty then ""
      else "### Functions\n\n"
        ++ String.join (functions.map (fun fn => "- `" ++ fn ++ "()`\n")) ++ "\n")

/-! ### `generateMarkdown` and the orchestration -/

/-- Keys of a JS object in insertion order: first occurrences, in order. -/
def firstOccs : List String → List String :=
  fun l => l.foldl (fun acc x => if x ∈ acc then acc else acc ++ [x]) []

mutual

/-- The call `replace(/\s+/g, "-")`: each maximal whitespace run becomes one dash. -/
def wsRunsToDash : List Char → List Char
  | [] => []
  | c :: cs => if isJsWs c then '-' :: wsSkipDash cs else c :: wsRunsToDash cs

/-- Inside a whitespace run already replaced by a dash. -/
def wsSkipDash : List Char → List Char
  | [] => []
  | c :: cs => if isJsWs c then wsSkipDash cs else c :: wsRunsToDash cs

end

/-- The text `chapter.toLowerCase().replace(/\s+/g, "-")`. -/
def chapterFileName (chapter : String) : String :=
  String.mk (wsRunsToDash (chapter.data.map jsToLowerChar))

/-- The text of one chapter file: records of the chapter grouped by
category in first-occurrence order. -/
def chapterContent (chapter : String) (items : List DocMetadata) : String :=
  "# " ++ chapter ++ " Examples\n\n"
  ++ String.join ((firstOccs (items.map DocMetadata.category)).map (fun category =>
      "## " ++ category ++ "\n\n"
      ++ String.join ((items.filter (fun i => i.category == category)).map (fun item =>
          "### " ++ item.name ++ "\n\n"
          ++ (if item.description = "" then "" else item.description ++ "\n\n")
          ++ "---\n\n"))))

/-- Function `generateMarkdown` from `scripts/generate-docs.ts`: one write per
distinct chapter, in first-occurrence order. -/
def generateMarkdown (docs : List DocMetadata) (outputPath : FsPath) : List (FsPath × String) :=
  (firstOccs (docs.map DocMetadata.chapter)).map (fun chapter =>
    (outputPath ++ [chapterFileName chapter ++ ".md"],
     chapterContent chapter (docs.filter (fun d => d.chapter == chapter))))

/-- A file of the scanned `test/` or `contracts/` directory, with the
directory listing order given by the list order. -/
structure SourceFile where
  name : String
  content : String
deriving DecidableEq, Repr

def isTestFileName (n : String) : Bool :=
  endsWithL n.data ".test.ts".data || endsWithL n.data ".spec.ts".data

def isSolFileName (n : String) : Bool :=
  endsWithL n.data ".sol".data

def docsDirPath : FsPath := ["docs"]

/-- The combined record sequence collected by `generateDocumentation`
(test files first, then contract files, each in listing order). -/
def collectedDocs (testFiles contractFiles : List SourceFile) : List DocMetadata :=
  ((testFiles.filter (fun f => isTestFileName f.name)).map
    (fun f => extractTestDocs f.content)).flatten
  ++ ((contractFiles.filter (fun f => isSolFileName f.name)).map
    (fun f => extractSolidityDocs f.content)).flatten

/-- Function `generateDocumentation` from `scripts/generate-docs.ts`, as its
ordered list of file writes: one `docs/api-reference.md` write per `.sol`
file in listing order, then the chapter files (only when at least one
record was extracted). -/
def generateDocumentation (testFiles contractFiles : List SourceFile) : List (FsPath × String) :=
  let allDocs := collectedDocs testFiles contractFiles
  ((contractFiles.filter (fun f => isSolFileName f.name)).map (fun f =>
      (docsDirPath ++ ["api-reference.md"], generateAPIReference f.content)))
  ++ (if allDocs.isEmpty then [] else generateMarkdown allDocs docsDirPath)

/-- The content a path holds after a list of writes (last writer wins). -/
def lastWriteAt (writes : List (FsPath × String)) (p : FsPath) : Option String :=
  ((writes.filter (fun w => w.1 == p)).map Prod.snd).getLast?

/-! ### Facts about `jsToUpperChar` -/

theorem charOfNat_toNat_sub32 (n : Nat) (h1 : 97 ≤ n) (h2 : n ≤ 122) :
    (Char.ofNat (n - 32)).toNat = n - 32 := by
  interval_cases n <;> decide

/-- Lemma: `jsToUpperChar` either fixes its argument or returns an ASCII capital. -/
theorem jsToUpperChar_cases (c : Char) :
    jsToUpperChar c = c ∨
      (65 ≤ (jsToUpperChar c).toNat ∧ (jsToUpperChar c).toNat ≤ 90) := by
  unfold jsToUpperChar
  by_cases h : 97 ≤ c.toNat ∧ c.toNat ≤ 122
  · right
    rw [if_pos h, charOfNat_toNat_sub32 c.toNat h.1 h.2]
    omega
  · left
    rw [if_neg h]

theorem jsToUpperChar_eq_self_of_not_lower (c : Char)
    (h : ¬(97 ≤ c.toNat ∧ c.toNat ≤ 122)) : jsToUpperChar c = c := by
  unfold jsToUpperChar
  rw [if_neg h]

theorem jsToUpperChar_idem (c : Char) :
    jsToUpperChar (jsToUpperChar c) = jsToUpperChar c := by
  rcases jsToUpperChar_cases c with h | h
  · rw [h, h]
  · exact jsToUpperChar_eq_self_of_not_lower _ (by omega)

theorem jsToUpperChar_ne_dash (c : Char) (hc : c ≠ '-') :
    jsToUpperChar c ≠ '-' := by
  rcases jsToUpperChar_cases c with h | h
  · rw [h]; exact hc
  · intro hd
    rw [hd] at h
    exact absurd h (by decide)

/-! ### Facts about `splitOnCharL` -/

theorem splitOnCharL_ne_nil (sep : Char) (l : List Char) :
    splitOnCharL sep l ≠ [] := by
  cases l with
  | nil => simp [splitOnCharL]
  | cons c cs =>
    simp only [splitOnCharL]
    split
    · simp
    · split <;> simp

theorem splitOnCharL_sep_not_mem (sep : Char) (l : List Char) :
    ∀ w ∈ splitOnCharL sep l, sep ∉ w := by
  induction l with
  | nil => intro w hw; simp [splitOnCharL] at hw; simp [hw]
  | cons c cs ih =>
    intro w hw
    simp only [splitOnCharL] at hw
    by_cases hc : c = sep
    · rw [if_pos hc] at hw
      rcases List.mem_cons.mp hw with h | h
      · simp [h]
      · exact ih w h
    · rw [if_neg hc] at hw
      rcases hws : splitOnCharL sep cs with _ | ⟨w0, ws0⟩
      · exact absurd hws (splitOnCharL_ne_nil sep cs)
      · rw [hws] at hw
        rcases List.mem_cons.mp hw with h | h
        · subst h
          intro hmem
          rcases List.mem_cons.mp hmem with h | h
          · exact hc h.symm
          · exact ih w0 (by rw [hws]; exact List.mem_cons_self _ _) h
        · exact ih w (by rw [hws]; exact List.mem_cons_of_mem _ h)

theorem splitOnCharL_of_not_mem (sep : Char) (l : List Char)
    (h : sep ∉ l) : splitOnCharL sep l = [l] := by
  induction l with
  | nil => rfl
  | cons c cs ih =>
    have hc : c ≠ sep := fun hc => h (by simp [hc])
    have hcs : sep ∉ cs := fun hm => h (List.mem_cons_of_mem _ hm)
    simp only [splitOnCharL, if_neg hc, ih hcs]

theorem splitOnCharL_append_sep (sep : Char) (w rest : List Char)
    (hw : sep ∉ w) :
    splitOnCharL sep (w ++ sep :: rest) = w :: splitOnCharL sep rest := by
  induction w with
  | nil => simp [splitOnCharL]
  | cons c cs ih =>
    have hc : c ≠ sep := fun hc => hw (by simp [hc])
    have hcs : sep ∉ cs := fun hm => hw (List.mem_cons_of_mem _ hm)
    simp only [List.cons_append, splitOnCharL, if_neg hc, List.append_eq, ih hcs]

/-! ### The transform on a kebab-case input and idempotence -/

theorem capWordL_dash_not_mem (w : List Char) (h : '-' ∉ w) :
    '-' ∉ capWordL w := by
  cases w with
  | nil => simp [capWordL]
  | cons c cs =>
    intro hmem
    simp only [capWordL] at hmem
    rcases List.mem_cons.mp hmem with hd | hd
    · exact jsToUpperChar_ne_dash c (fun hc => h (by simp [hc])) hd.symm
    · exact h (List.mem_cons_of_mem _ hd)

theorem camelL_dash_not_mem (l : List Char) : '-' ∉ camelL l := by
  intro hmem
  unfold camelL at hmem
  rcases List.mem_flatten.mp hmem with ⟨w, hw, hmw⟩
  rcases List.mem_map.mp hw with ⟨w0, hw0, rfl⟩
  exact capWordL_dash_not_mem w0 (splitOnCharL_sep_not_mem '-' l w0 hw0) hmw

theorem capWordL_flatten_map (ws : List (List Char)) :
    capWordL ((ws.map capWordL).flatten) = (ws.map capWordL).flatten := by
  induction ws with
  | nil => rfl
  | cons w ws ih =>
    cases w with
    | nil =>
      simp only [List.map_cons, List.flatten_cons, capWordL, List.nil_append]
      exact ih
    | cons c cs =>
      simp [capWordL, jsToUpperChar_idem]

theorem camelL_idem (l : List Char) : camelL (camelL l) = camelL l := by
  conv_lhs => rw [camelL, splitOnCharL_of_not_mem '-' (camelL l) (camelL_dash_not_mem l)]
  simp only [List.map_cons, List.map_nil, List.flatten_cons, List.flatten_nil,
    List.append_nil]
  rw [camelL]
  exact capWordL_flatten_map _

theorem camelL_interDash (ws : List (List Char)) (hne : ws ≠ [])
    (hfree : ∀ w ∈ ws, '-' ∉ w) :
    camelL (interDash ws) = (ws.map capWordL).flatten := by
  induction ws with
  | nil => exact absurd rfl hne
  | cons w ws ih =>
    cases ws with
    | nil =>
      simp only [interDash, camelL,
        splitOnCharL_of_not_mem '-' w (hfree w (List.mem_cons_self _ _))]
    | cons w1 ws1 =>
      have hfree' : ∀ u ∈ w1 :: ws1, '-' ∉ u := fun u hu =>
        hfree u (List.mem_cons_of_mem _ hu)
      simp only [interDash, camelL,
        splitOnCharL_append_sep '-' w _ (hfree w (List.mem_cons_self _ _))]
      simp only [List.map_cons, List.flatten_cons]
      have := ih (by simp) hfree'
      rw [camelL] at this
      rw [this]
      simp

/-! ## Helper lemmas on the extraction machinery -/

theorem stringMk_ne_empty (l : List Char) (h : l ≠ []) : String.mk l ≠ "" := by
  intro hc
  exact h (by simpa using congrArg String.data hc)

/-- When every match of the tag trims non-empty, the `tagOr` field with a
non-empty default is non-empty. -/
theorem tagOr_ne_empty (dflt : String) (tag b : List Char)
    (hgood : tagGood tag b = true) (hd : dflt ≠ "") : tagOr dflt tag b ≠ "" := by
  unfold tagGood at hgood
  cases h : findTag tag b with
  | none => simpa [tagOr, h] using hd
  | some cap =>
    rw [h] at hgood
    simp only [Bool.not_eq_true'] at hgood
    have hne : jsTrimL cap ≠ [] := by
      intro hc
      rw [hc] at hgood
      simp at hgood
    simpa [tagOr, h] using stringMk_ne_empty _ hne

/-- Every record of the test-file scan is a `mkTestRecord` of some
comment block and title. -/
theorem testScan_mem (st : TScan) (lines : List (List Char)) :
    ∀ r ∈ testScan st lines, ∃ b t : List Char, r = mkTestRecord b t := by
  induction lines generalizing st with
  | nil =>
    intro r hr
    cases st <;> simp [testScan] at hr
  | cons line rest ih =>
    intro r hr
    cases st with
    | out => exact ih _ r hr
    | inBlock acc =>
      simp only [testScan] at hr
      split at hr
      · exact ih _ r hr
      · exact ih _ r hr
    | closed block =>
      simp only [testScan] at hr
      rcases List.mem_append.mp hr with h | h
      · split at h
        · split at h
          · rename_i title _
            rw [List.mem_singleton.mp h]
            exact ⟨block, title, rfl⟩
          · cases h
        · cases h
      · exact ih _ r h

/-- Field view of a record produced by `mkSolRecord`. -/
theorem mkSolRecord_fields (b : List Char) (r : DocMetadata) (h : mkSolRecord b = some r) :
    r.category = tagOr "general" categoryTagL b
    ∧ r.chapter = tagOr "general" chapterTagL b
    ∧ r.description = tagOr "" noticeTagL b
    ∧ ∃ cap, findTag titleTagL b = some cap ∧ r.name = String.mk (jsTrimL cap) := by
  unfold mkSolRecord at h
  cases ht : findTag titleTagL b with
  | none => rw [ht] at h; cases h
  | some cap =>
    rw [ht] at h
    injection h with h
    subst h
    exact ⟨rfl, rfl, rfl, cap, rfl, rfl⟩

theorem startsWithL_decomp : ∀ (p l : List Char), startsWithL l p = true →
    l = p ++ l.drop p.length := by
  intro p
  induction p with
  | nil => intro l _; simp
  | cons a p ih =>
    intro l h
    cases l with
    | nil => simp [startsWithL] at h
    | cons c cs =>
      simp only [startsWithL, Bool.and_eq_true, decide_eq_true_eq] at h
      obtain ⟨rfl, h2⟩ := h
      simpa using ih cs h2

theorem dropWhile_head_not {α} (p : α → Bool) : ∀ (l : List α) (c : α) (tl : List α),
    l.dropWhile p = c :: tl → p c = false := by
  intro l
  induction l with
  | nil => intro c tl h; cases h
  | cons a as ih =>
    intro c tl h
    rw [List.dropWhile_cons] at h
    split at h
    · exact ih c tl h
    · rename_i hpa
      injection h with h1 h2
      subst h1
      simpa using hpa

theorem length_dropWhile_le' {α} (p : α → Bool) (l : List α) :
    (l.dropWhile p).length ≤ l.length := by
  have h := congrArg List.length (List.takeWhile_append_dropWhile p l)
  rw [List.length_append] at h
  omega

/-- A successful anchored match of `/it\("([^"]+)"/` decomposes the text:
the capture is the non-empty quote-free text between `it("` and the next
`"`. -/
theorem itMatchAt_decomp (cs t : List Char) (h : itMatchAt cs = some t) :
    t ≠ [] ∧ '"' ∉ t ∧ ∃ v, cs = ['i', 't', '(', '"'] ++ (t ++ '"' :: v) := by
  unfold itMatchAt at h
  split at h
  case isTrue hsw =>
    split at h
    · cases h
    · rename_i hne
      split at h
      · cases h
      · rename_i hcl
        injection h with h
        subst h
        rcases hdrop : (cs.drop 4).dropWhile (fun c => !(c = '"')) with _ | ⟨c0, tl⟩
        · rw [hdrop] at hcl; simp at hcl
        · have hc0 : c0 = '"' := by
            have := dropWhile_head_not _ _ _ _ hdrop
            simpa using this
          subst hc0
          refine ⟨?_, ?_, tl, ?_⟩
          · intro hnil; rw [hnil] at hne; simp at hne
          · intro hmem
            have := List.mem_takeWhile_imp hmem
            simp at this
          · have e1 : cs = ['i', 't', '(', '"'] ++ cs.drop 4 := startsWithL_decomp _ _ hsw
            have e2 : cs.drop 4 =
                (cs.drop 4).takeWhile (fun c => !(c = '"')) ++ '"' :: tl := by
              conv_lhs => rw [← List.takeWhile_append_dropWhile (fun c => !(c = '"')) (cs.drop 4)]
              rw [hdrop]
            rw [← e2, ← e1]
  case isFalse => cases h

/-- Leftmost-match decomposition for `/it\("([^"]+)"/` over a line. -/
theorem findIt_decomp : ∀ (l t : List Char), findIt l = some t →
    t ≠ [] ∧ '"' ∉ t ∧ ∃ u v, l = u ++ ['i', 't', '(', '"'] ++ (t ++ '"' :: v) := by
  intro l
  induction l with
  | nil => intro t h; cases h
  | cons c cs ih =>
    intro t h
    unfold findIt at h
    cases hm : itMatchAt (c :: cs) with
    | some t0 =>
      rw [hm] at h
      injection h with h
      subst h
      obtain ⟨h1, h2, v, hv⟩ := itMatchAt_decomp _ _ hm
      exact ⟨h1, h2, [], v, by simpa using hv⟩
    | none =>
      rw [hm] at h
      obtain ⟨h1, h2, u, v, hv⟩ := ih t h
      exact ⟨h1, h2, c :: u, v, by simp [hv]⟩

/-- A successful attempt of `/\s+(\w+)\s*\([^)]*\)[^{]*\{/` decomposes its
input: whitespace, the captured word, bracketed filler, then the
continuation point; in particular the continuation is strictly shorter. -/
theorem fnAttempt_decomp (cs name rest : List Char)
    (h : fnAttempt cs = some (name, rest)) :
    ∃ tw mid, cs = tw ++ name ++ mid ++ rest
      ∧ tw ≠ [] ∧ tw.all isJsWs = true
      ∧ name ≠ [] ∧ name.all isWordChar = true
      ∧ rest.length < cs.length := by
  unfold fnAttempt at h
  split at h
  · cases h
  rename_i htw
  split at h
  · cases h
  rename_i hnm
  split at h
  case _ r4 heq1 =>
    split at h
    case _ r5 heq2 =>
      split at h
      case _ r6 heq3 =>
        simp only [Option.some.injEq, Prod.mk.injEq] at h
        obtain ⟨h1, h2⟩ := h
        subst h1
        subst h2
        have htw' : cs.takeWhile isJsWs ≠ [] := by
          intro hc; rw [hc] at htw; simp at htw
        have hnm' : (cs.dropWhile isJsWs).takeWhile isWordChar ≠ [] := by
          intro hc; rw [hc] at hnm; simp at hnm
        have hdec : cs = cs.takeWhile isJsWs
            ++ (cs.dropWhile isJsWs).takeWhile isWordChar
            ++ (((cs.dropWhile isJsWs).dropWhile isWordChar).takeWhile isJsWs
                ++ '(' :: (r4.takeWhile (fun c => !(c = ')'))
                ++ ')' :: (r5.takeWhile (fun c => !(c = '\x7b')) ++ ['\x7b'])))
            ++ r6 := by
          conv_lhs =>
            rw [← List.takeWhile_append_dropWhile isJsWs cs,
              ← List.takeWhile_append_dropWhile isWordChar (cs.dropWhile isJsWs),
              ← List.takeWhile_append_dropWhile isJsWs
                ((cs.dropWhile isJsWs).dropWhile isWordChar),
              heq1,
              ← List.takeWhile_append_dropWhile (fun c => !(c = ')')) r4,
              heq2,
              ← List.takeWhile_append_dropWhile (fun c => !(c = '\x7b')) r5,
              heq3]
          simp [List.append_assoc]
        refine ⟨cs.takeWhile isJsWs, _, hdec, htw', ?_, hnm', ?_, ?_⟩
        · exact List.all_eq_true.mpr fun a ha => List.mem_takeWhile_imp ha
        · exact List.all_eq_true.mpr fun a ha => List.mem_takeWhile_imp ha
        · have := congrArg List.length hdec
          simp only [List.length_append, List.length_cons] at this
          have hpos : 0 < (cs.takeWhile isJsWs).length := List.length_pos.mpr htw'
          omega
      · cases h
    · cases h
  · cases h

/-- Every captured name of the global function-declaration scan arises
from an actual `function<ws><name>` occurrence in the text. -/
theorem fnScanF_sound : ∀ (fuel : Nat) (cs name : List Char), name ∈ fnScanF fuel cs →
    ∃ u tw v, cs = u ++ "function".data ++ tw ++ name ++ v
      ∧ tw ≠ [] ∧ tw.all isJsWs = true ∧ name ≠ [] ∧ name.all isWordChar = true := by
  intro fuel
  induction fuel with
  | zero => intro cs name h; simp [fnScanF] at h
  | succ fuel ih =>
    intro cs name h
    cases cs with
    | nil => simp [fnScanF] at h
    | cons c cs' =>
      simp only [fnScanF] at h
      by_cases hstart : startsWithL (c :: cs') "function".data
      · rw [if_pos hstart] at h
        have hsw : (c :: cs') = "function".data ++ (c :: cs').drop 8 :=
          startsWithL_decomp _ _ hstart
        cases hatt : fnAttempt ((c :: cs').drop 8) with
        | some pr =>
          obtain ⟨nm, rest⟩ := pr
          rw [hatt] at h
          obtain ⟨tw0, mid0, hdec0, htw0, htwall0, hnm0, hall0, -⟩ :=
            fnAttempt_decomp _ _ _ hatt
          rcases List.mem_cons.mp h with rfl | h2
          · refine ⟨[], tw0, mid0 ++ rest, ?_, htw0, htwall0, hnm0, hall0⟩
            rw [List.nil_append, hsw, hdec0]
            simp [List.append_assoc]
          · obtain ⟨u, tw, v, hdec2, htw, htwall, hnm, hall⟩ := ih rest name h2
            refine ⟨"function".data ++ tw0 ++ nm ++ mid0 ++ u, tw, v, ?_, htw, htwall, hnm, hall⟩
            rw [hsw, hdec0, hdec2]
            simp [List.append_assoc]
        | none =>
          rw [hatt] at h
          obtain ⟨u, tw, v, hdec2, htw, htwall, hnm, hall⟩ := ih cs' name h
          exact ⟨c :: u, tw, v, by simp [hdec2], htw, htwall, hnm, hall⟩
      · rw [if_neg hstart] at h
        obtain ⟨u, tw, v, hdec2, htw, htwall, hnm, hall⟩ := ih cs' name h
        exact ⟨c :: u, tw, v, by simp [hdec2], htw, htwall, hnm, hall⟩

/-- Any fuel at least the text length computes the same capture list: the
`apiFunctionNames` fuel choice never truncates the scan. -/
theorem fnScanF_fuel : ∀ (f1 f2 : Nat) (cs : List Char), cs.length ≤ f1 → cs.length ≤ f2 →
    fnScanF f1 cs = fnScanF f2 cs := by
  intro f1
  induction f1 with
  | zero =>
    intro f2 cs h1 _
    have hcs : cs = [] := List.length_eq_zero.mp (Nat.le_zero.mp h1)
    subst hcs
    cases f2 <;> simp [fnScanF]
  | succ f ih =>
    intro f2 cs h1 h2
    cases cs with
    | nil => cases f2 <;> simp [fnScanF]
    | cons c cs' =>
      cases f2 with
      | zero => simp at h2
      | succ g =>
        simp only [fnScanF]
        by_cases hstart : startsWithL (c :: cs') "function".data
        · rw [if_pos hstart, if_pos hstart]
          cases hatt : fnAttempt ((c :: cs').drop 8) with
          | some pr =>
            obtain ⟨nm, rest⟩ := pr
            obtain ⟨-, -, -, -, -, -, -, hlen⟩ := fnAttempt_decomp _ _ _ hatt
            simp only [List.length_drop, List.length_cons] at hlen
            simp only [List.length_cons] at h1 h2
            exact congrArg (nm :: ·) (ih g rest (by omega) (by omega))
          | none =>
            simp only [List.length_cons] at h1 h2
            exact ih g cs' (by omega) (by omega)
        · rw [if_neg hstart, if_neg hstart]
          simp only [List.length_cons] at h1 h2
          exact ih g cs' (by omega) (by omega)

/-- Computing `apiFunctionNames` as the stable value of the fuelled scan. -/
theorem fnScanF_eq_apiFunctionNames (fuel : Nat) (cs : List Char) (h : cs.length ≤ fuel) :
    fnScanF fuel cs = apiFunctionNames cs :=
  fnScanF_fuel fuel cs.length cs h (Nat.le_refl _)

/-- A successful attempt of `/\s+(\w+)/` decomposes its input. -/
theorem contractAttempt_decomp (cs n : List Char) (h : contractAttempt cs = some n) :
    ∃ tw v, cs = tw ++ n ++ v ∧ tw ≠ [] ∧ tw.all isJsWs = true
      ∧ n ≠ [] ∧ n.all isWordChar = true := by
  unfold contractAttempt at h
  split at h
  · cases h
  rename_i htw
  split at h
  · cases h
  rename_i hnm
  injection h with h
  subst h
  have htw' : cs.takeWhile isJsWs ≠ [] := by
    intro hc; rw [hc] at htw; simp at htw
  have hnm' : (cs.dropWhile isJsWs).takeWhile isWordChar ≠ [] := by
    intro hc; rw [hc] at hnm; simp at hnm
  refine ⟨cs.takeWhile isJsWs, (cs.dropWhile isJsWs).dropWhile isWordChar, ?_, htw', ?_, hnm', ?_⟩
  · conv_lhs =>
      rw [← List.takeWhile_append_dropWhile isJsWs cs,
        ← List.takeWhile_append_dropWhile isWordChar (cs.dropWhile isJsWs)]
    simp [List.append_assoc]
  · exact List.all_eq_true.mpr fun a ha => List.mem_takeWhile_imp ha
  · exact List.all_eq_true.mpr fun a ha => List.mem_takeWhile_imp ha

/-- The leftmost `contract`-keyword match returns the first identifier
after the keyword: soundness of `contractScan`. -/
theorem contractScan_sound : ∀ (cs n : List Char), contractScan cs = some n →
    ∃ u tw v, cs = u ++ "contract".data ++ tw ++ n ++ v
      ∧ tw ≠ [] ∧ tw.all isJsWs = true ∧ n ≠ [] ∧ n.all isWordChar = true := by
  intro cs
  induction cs with
  | nil => intro n h; cases h
  | cons c cs' ih =>
    intro n h
    unfold contractScan at h
    by_cases hstart : startsWithL (c :: cs') "contract".data
    · rw [if_pos hstart] at h
      have hsw : (c :: cs') = "contract".data ++ (c :: cs').drop 8 :=
        startsWithL_decomp _ _ hstart
      cases hatt : contractAttempt ((c :: cs').drop 8) with
      | some n0 =>
        rw [hatt] at h
        injection h with h
        subst h
        obtain ⟨tw, v, hdec, htw, htwall, hn, hall⟩ := contractAttempt_decomp _ _ hatt
        refine ⟨[], tw, v, ?_, htw, htwall, hn, hall⟩
        rw [List.nil_append, hsw, hdec]
        simp [List.append_assoc]
      | none =>
        rw [hatt] at h
        obtain ⟨u, tw, v, hdec, htw, htwall, hn, hall⟩ := ih n h
        exact ⟨c :: u, tw, v, by simp [hdec], htw, htwall, hn, hall⟩
    · rw [if_neg hstart] at h
      obtain ⟨u, tw, v, hdec, htw, htwall, hn, hall⟩ := ih n h
      exact ⟨c :: u, tw, v, by simp [hdec], htw, htwall, hn, hall⟩

/-- The match tail of the comment-block regex strictly shortens the
text: the resumption point of the global scan makes progress. -/
theorem findBodyEnd_length : ∀ (l b r : List Char), findBodyEnd l = some (b, r) →
    r.length < l.length := by
  intro l
  induction l with
  | nil => intro b r h; cases h
  | cons c cs ih =>
    intro b r h
    unfold findBodyEnd at h
    split at h
    · split at h
      · simp only [Option.some.injEq, Prod.mk.injEq] at h
        obtain ⟨-, h2⟩ := h
        subst h2
        have h1 := length_dropWhile_le' isJsWs ((c :: cs).drop 2)
        simp only [List.length_drop, List.length_cons] at h1 ⊢
        omega
      · split at h
        · simp only [Option.some.injEq, Prod.mk.injEq] at h
          obtain ⟨-, h2⟩ := h
          subst h2
          have h1 := length_dropWhile_le' isJsWs ((c :: cs).drop 2)
          simp only [List.length_drop, List.length_cons] at h1 ⊢
          omega
        · cases hfr : findBodyEnd cs with
          | none => rw [hfr] at h; cases h
          | some pr =>
            obtain ⟨b0, r0⟩ := pr
            rw [hfr] at h
            simp only [Option.some.injEq, Prod.mk.injEq] at h
            obtain ⟨-, h2⟩ := h
            subst h2
            have := ih b0 r0 hfr
            simp only [List.length_cons]
            omega
    · cases hfr : findBodyEnd cs with
      | none => rw [hfr] at h; cases h
      | some pr =>
        obtain ⟨b0, r0⟩ := pr
        rw [hfr] at h
        simp only [Option.some.injEq, Prod.mk.injEq] at h
        obtain ⟨-, h2⟩ := h
        subst h2
        have := ih b0 r0 hfr
        simp only [List.length_cons]
        omega

/-- Any fuel at least the text length computes the same block list: the
`solBlocks` fuel choice never truncates the scan. -/
theorem solBlocksF_fuel : ∀ (f1 f2 : Nat) (cs : List Char), cs.length ≤ f1 → cs.length ≤ f2 →
    solBlocksF f1 cs = solBlocksF f2 cs := by
  intro f1
  induction f1 with
  | zero =>
    intro f2 cs h1 _
    have hcs : cs = [] := List.length_eq_zero.mp (Nat.le_zero.mp h1)
    subst hcs
    cases f2 <;> simp [solBlocksF]
  | succ f ih =>
    intro f2 cs h1 h2
    cases cs with
    | nil => cases f2 <;> simp [solBlocksF]
    | cons c cs' =>
      cases f2 with
      | zero => simp at h2
      | succ g =>
        simp only [solBlocksF]
        by_cases hstart : startsWithL (c :: cs') "/**\n".data
        · rw [if_pos hstart, if_pos hstart]
          cases hfb : findBodyEnd ((c :: cs').drop 4) with
          | some pr =>
            obtain ⟨body, rest⟩ := pr
            have hlen := findBodyEnd_length _ _ _ hfb
            simp only [List.length_drop, List.length_cons] at hlen
            simp only [List.length_cons] at h1 h2
            exact congrArg (body :: ·) (ih g rest (by omega) (by omega))
          | none =>
            simp only [List.length_cons] at h1 h2
            exact ih g cs' (by omega) (by omega)
        · rw [if_neg hstart, if_neg hstart]
          simp only [List.length_cons] at h1 h2
          exact ih g cs' (by omega) (by omega)

/-- Computing `solBlocks` as the stable value of the fuelled scan. -/
theorem solBlocksF_eq_solBlocks (fuel : Nat) (cs : List Char) (h : cs.length ≤ fuel) :
    solBlocksF fuel cs = solBlocks cs :=
  solBlocksF_fuel fuel cs.length cs h (Nat.le_refl _)

/-! ## Claim theorems -/

/-- C3: the display-identifier transform `convertToCamelCase` is total on
strings (it is a Lean function, defined for every `s`) and idempotent; on
a kebab-case input — dash-free segments joined by single dashes — it
upper-cases the first character of every segment, alters no other
character (`capWordL` is literally "upper-case the head, keep the tail"),
and concatenates the segments with no separator; in particular
`encrypted-counter` maps to `EncryptedCounter`. -/
theorem convertToCamelCase_total_idem_kebab (s : String) (ws : List (List Char))
    (hne : ws ≠ []) (hfree : ∀ w ∈ ws, '-' ∉ w) :
    convertToCamelCase (convertToCamelCase s) = convertToCamelCase s
    ∧ convertToCamelCase (String.mk (interDash ws)) = String.mk ((ws.map capWordL).flatten)
    ∧ convertToCamelCase "encrypted-counter" = "EncryptedCounter" := by
  refine ⟨?_, ?_, by decide⟩
  · simp only [convertToCamelCase]
    rw [camelL_idem]
  · simp only [convertToCamelCase]
    rw [camelL_interDash ws hne hfree]

/-- Witness for C3 at concrete inputs. -/
theorem convertToCamelCase_total_idem_kebab_witness :
    convertToCamelCase (convertToCamelCase "user-decryption") = convertToCamelCase "user-decryption"
    ∧ convertToCamelCase (String.mk (interDash ["encrypted".data, "counter".data]))
        = String.mk ((["encrypted".data, "counter".data].map capWordL).flatten)
    ∧ convertToCamelCase "encrypted-counter" = "EncryptedCounter" :=
  convertToCamelCase_total_idem_kebab "user-decryption" ["encrypted".data, "counter".data]
    (by decide) (by decide)

/-- C2: for every key of the example catalog, `generateExample` succeeds
and its side effects are exactly one project directory under `outputDir`
named by the display-identifier transform of the key, holding the eight
seed subdirectories and exactly the six files
`contracts/<Name>.sol`, `test/<Name>.test.ts`, `hardhat.config.ts`,
`tsconfig.json`, `package.json`, `README.md`; every created path extends
`outputDir ++ [<Name>]`. -/
theorem generateExample_layout (k : String) (outputDir : FsPath) (config : ExampleConfig)
    (h : List.lookup k EXAMPLE_CATEGORIES = some config) :
    ∃ out : GenOut,
      generateExample k outputDir = Except.ok out
      ∧ out.dirs = projectSeedDirs (outputDir ++ [convertToCamelCase k])
      ∧ out.dirs.length = 8
      ∧ out.files.map Prod.fst =
          [(outputDir ++ [convertToCamelCase k]) ++ ["contracts", convertToCamelCase k ++ ".sol"],
           (outputDir ++ [convertToCamelCase k]) ++ ["test", convertToCamelCase k ++ ".test.ts"],
           (outputDir ++ [convertToCamelCase k]) ++ ["hardhat.config.ts"],
           (outputDir ++ [convertToCamelCase k]) ++ ["tsconfig.json"],
           (outputDir ++ [convertToCamelCase k]) ++ ["package.json"],
           (outputDir ++ [convertToCamelCase k]) ++ ["README.md"]]
      ∧ out.files.length = 6
      ∧ ∀ p ∈ out.dirs ++ out.files.map Prod.fst, (outputDir ++ [convertToCamelCase k]) <+: p := by
  refine ⟨⟨projectSeedDirs (outputDir ++ [convertToCamelCase k]),
    [((outputDir ++ [convertToCamelCase k]) ++ ["contracts", convertToCamelCase k ++ ".sol"],
      generateContractTemplate config.name config.category),
     ((outputDir ++ [convertToCamelCase k]) ++ ["test", convertToCamelCase k ++ ".test.ts"],
      generateTestTemplate (convertToCamelCase k)),
     ((outputDir ++ [convertToCamelCase k]) ++ ["hardhat.config.ts"], generateHardhatConfigTemplate),
     ((outputDir ++ [convertToCamelCase k]) ++ ["tsconfig.json"], tsconfigContent),
     ((outputDir ++ [convertToCamelCase k]) ++ ["package.json"], packageJsonContent k config.description),
     ((outputDir ++ [convertToCamelCase k]) ++ ["README.md"], readmeContent config)]⟩,
    ?_, rfl, rfl, rfl, rfl, ?_⟩
  · simp only [generateExample, h]
  · intro p hp
    simp only [projectSeedDirs, List.map_cons, List.map_nil, List.mem_append,
      List.mem_cons, List.not_mem_nil, or_false] at hp
    rcases hp with (rfl | rfl | rfl | rfl | rfl | rfl | rfl | rfl) | (rfl | rfl | rfl | rfl | rfl | rfl) <;>
      exact List.prefix_append _ _

/-- Witness for C2 at the catalog key `encrypted-counter`. -/
theorem generateExample_layout_witness :
    List.lookup "encrypted-counter" EXAMPLE_CATEGORIES =
      some ⟨"Encrypted Counter", "Basic FHE counter demonstrating simple encrypted arithmetic",
            "basic", ["addition", "subtraction", "encryption"]⟩
    ∧ ∃ out : GenOut,
        generateExample "encrypted-counter" ["work"] = Except.ok out
        ∧ out.dirs = projectSeedDirs (["work"] ++ [convertToCamelCase "encrypted-counter"])
        ∧ out.dirs.length = 8
        ∧ out.files.map Prod.fst =
            [(["work"] ++ [convertToCamelCase "encrypted-counter"]) ++ ["contracts", convertToCamelCase "encrypted-counter" ++ ".sol"],
             (["work"] ++ [convertToCamelCase "encrypted-counter"]) ++ ["test", convertToCamelCase "encrypted-counter" ++ ".test.ts"],
             (["work"] ++ [convertToCamelCase "encrypted-counter"]) ++ ["hardhat.config.ts"],
             (["work"] ++ [convertToCamelCase "encrypted-counter"]) ++ ["tsconfig.json"],
             (["work"] ++ [convertToCamelCase "encrypted-counter"]) ++ ["package.json"],
             (["work"] ++ [convertToCamelCase "encrypted-counter"]) ++ ["README.md"]]
        ∧ out.files.length = 6
        ∧ ∀ p ∈ out.dirs ++ out.files.map Prod.fst,
            (["work"] ++ [convertToCamelCase "encrypted-counter"]) <+: p :=
  ⟨by decide,
   generateExample_layout "encrypted-counter" ["work"]
     ⟨"Encrypted Counter", "Basic FHE counter demonstrating simple encrypted arithmetic",
      "basic", ["addition", "subtraction", "encryption"]⟩ (by decide)⟩

/-- C4: for every key absent from the example catalog, `generateExample`
performs no filesystem side effect, prints the error and the list of valid
keys to standard error, and exits the process with status 1 (non-zero). -/
theorem generateExample_unknown_key (k : String) (outputDir : FsPath)
    (h : List.lookup k EXAMPLE_CATEGORIES = none) :
    generateExample k outputDir =
      Except.error ⟨["Unknown example: " ++ k,
                     "Available examples: " ++ availableExamplesLine], 1⟩
    ∧ genDirsOf (generateExample k outputDir) = []
    ∧ genFilesOf (generateExample k outputDir) = []
    ∧ stderrOf (generateExample k outputDir) =
        ["Unknown example: " ++ k,
         "Available examples: encrypted-counter, access-control, encrypted-arithmetic, user-decryption, public-decryption"]
    ∧ exitOf (generateExample k outputDir) = some 1
    ∧ exitOf (generateExample k outputDir) ≠ some 0 := by
  have hline : availableExamplesLine =
      "encrypted-counter, access-control, encrypted-arithmetic, user-decryption, public-decryption" := by
    decide
  refine ⟨?_, ?_, ?_, ?_, ?_, ?_⟩ <;>
    simp [generateExample, h, genDirsOf, genFilesOf, stderrOf, exitOf, hline]

/-- Witness for C4 at the absent key `not-a-real-key`. -/
theorem generateExample_unknown_key_witness :
    generateExample "not-a-real-key" ["out"] =
      Except.error ⟨["Unknown example: " ++ "not-a-real-key",
                     "Available examples: " ++ availableExamplesLine], 1⟩
    ∧ genDirsOf (generateExample "not-a-real-key" ["out"]) = []
    ∧ genFilesOf (generateExample "not-a-real-key" ["out"]) = []
    ∧ stderrOf (generateExample "not-a-real-key" ["out"]) =
        ["Unknown example: " ++ "not-a-real-key",
         "Available examples: encrypted-counter, access-control, encrypted-arithmetic, user-decryption, public-decryption"]
    ∧ exitOf (generateExample "not-a-real-key" ["out"]) = some 1
    ∧ exitOf (generateExample "not-a-real-key" ["out"]) ≠ some 0 :=
  generateExample_unknown_key "not-a-real-key" ["out"] (by decide)

/-- C5: for every key absent from the category catalog,
`createCategoryStructure` writes no file and no directory, reports one
line to standard error and returns normally, so the `create` command
exits with status 0 — unlike the example generator, whose unknown-key
path exits with status 1. -/
theorem createCategoryStructure_unknown_key (k : String) (outputDir : FsPath)
    (h : List.lookup k CATEGORIES = none) :
    createCategoryStructure k outputDir = ⟨[], [], ["Unknown category: " ++ k]⟩
    ∧ (createCategoryStructure k outputDir).files = []
    ∧ (createCategoryStructure k outputDir).dirs = []
    ∧ (createCategoryStructure k outputDir).errs ≠ []
    ∧ (cliCategoryCreate k outputDir).2 = 0
    ∧ (∀ k2 : String, ∀ d2 : FsPath, List.lookup k2 EXAMPLE_CATEGORIES = none →
        exitOf (generateExample k2 d2) = some 1) := by
  refine ⟨?_, ?_, ?_, ?_, ?_, ?_⟩
  · simp [createCategoryStructure, h]
  · simp [createCategoryStructure, h]
  · simp [createCategoryStructure, h]
  · simp [createCategoryStructure, h]
  · simp [cliCategoryCreate]
  · intro k2 d2 h2
    simp [generateExample, h2, exitOf]

/-- Witness for C5 at the absent key `no-such-category`. -/
theorem createCategoryStructure_unknown_key_witness :
    createCategoryStructure "no-such-category" ["docs", "categories"] =
      ⟨[], [], ["Unknown category: " ++ "no-such-category"]⟩
    ∧ (createCategoryStructure "no-such-category" ["docs", "categories"]).files = []
    ∧ (createCategoryStructure "no-such-category" ["docs", "categories"]).dirs = []
    ∧ (createCategoryStructure "no-such-category" ["docs", "categories"]).errs ≠ []
    ∧ (cliCategoryCreate "no-such-category" ["docs", "categories"]).2 = 0
    ∧ exitOf (generateExample "no-such-category" ["docs", "categories"]) = some 1 := by
  have h := createCategoryStructure_unknown_key "no-such-category" ["docs", "categories"] (by decide)
  exact ⟨h.1, h.2.1, h.2.2.1, h.2.2.2.1, h.2.2.2.2.1,
    h.2.2.2.2.2 "no-such-category" ["docs", "categories"] (by decide)⟩

/-- C1 (evaluation at the failing input): for the catalog key
`encrypted-counter` the generated contract file is the first file written,
its text does NOT contain the generated display identifier
`EncryptedCounter` anywhere (the display name `Encrypted Counter`, with a
space, is spliced instead, because `generateExample` passes
`config.name` rather than the key to the contract template), while the
generated test file DOES reference the identifier through the
contract-factory pattern — so the project the tool emits contradicts its
own test suite. -/
theorem generateExample_contract_lacks_identifier :
    (genFilesOf (generateExample "encrypted-counter" [])).map Prod.snd =
      [generateContractTemplate "Encrypted Counter" "basic",
       generateTestTemplate (convertToCamelCase "encrypted-counter"),
       generateHardhatConfigTemplate,
       tsconfigContent,
       packageJsonContent "encrypted-counter" "Basic FHE counter demonstrating simple encrypted arithmetic",
       readmeContent ⟨"Encrypted Counter", "Basic FHE counter demonstrating simple encrypted arithmetic",
                      "basic", ["addition", "subtraction", "encryption"]⟩]
    ∧ hasInfixL (generateContractTemplate "Encrypted Counter" "basic").data
        "EncryptedCounter".data = false
    ∧ hasInfixL (generateTestTemplate (convertToCamelCase "encrypted-counter")).data
        "getContractFactory(\"EncryptedCounter\")".data = true :=
  ⟨rfl, by decide, by decide⟩

/-- C7: `extractSolidityDocs` filters the comment-block matches through
`mkSolRecord`; a match yields a record exactly when its block carries a
matching `@title` annotation (so a block with `@category` and `@notice`
but no `@title` yields none), and when a record is produced a missing
`@category` or `@chapter` defaults to `"general"` and a missing `@notice`
to the empty description. -/
theorem extractSolidityDocs_title_mandatory (content : String) (b : List Char)
    (hb : b ∈ solBlocks content.data) :
    extractSolidityDocs content = (solBlocks content.data).filterMap mkSolRecord
    ∧ ((mkSolRecord b).isSome ↔ (findTag titleTagL b).isSome)
    ∧ (∀ r, mkSolRecord b = some r →
        (findTag categoryTagL b = none → r.category = "general")
        ∧ (findTag chapterTagL b = none → r.chapter = "general")
        ∧ (findTag noticeTagL b = none → r.description = "")) := by
  refine ⟨rfl, ?_, ?_⟩
  · unfold mkSolRecord
    cases findTag titleTagL b <;> simp
  · intro r hr
    obtain ⟨hcat, hchap, hdesc, -⟩ := mkSolRecord_fields b r hr
    refine ⟨fun hc => ?_, fun hc => ?_, fun hc => ?_⟩
    · rw [hcat]; simp [tagOr, hc]
    · rw [hchap]; simp [tagOr, hc]
    · rw [hdesc]; simp [tagOr, hc]

/-- Witness for C7: a comment block carrying `@category` and `@notice`
but no `@title`, attached to a `contract` keyword; it yields no record. -/
theorem extractSolidityDocs_title_mandatory_witness :
    extractSolidityDocs "/**\n * @category basic\n * @notice Hi\n */\ncontract Foo \x7b \x7d"
      = (solBlocks ("/**\n * @category basic\n * @notice Hi\n */\ncontract Foo \x7b \x7d").data).filterMap mkSolRecord
    ∧ ((mkSolRecord (" * @category basic\n * @notice Hi\n ").data).isSome
        ↔ (findTag titleTagL (" * @category basic\n * @notice Hi\n ").data).isSome)
    ∧ extractSolidityDocs "/**\n * @category basic\n * @notice Hi\n */\ncontract Foo \x7b \x7d" = [] := by
  have h := extractSolidityDocs_title_mandatory
    "/**\n * @category basic\n * @notice Hi\n */\ncontract Foo \x7b \x7d"
    (" * @category basic\n * @notice Hi\n ").data (by decide)
  exact ⟨h.1, h.2.1, by decide⟩

/-- C8 counterexample: a record whose `category` field is the EMPTY
string.  In the block `/** */ @category  ` (tag followed by two spaces at
the end of the block) the regex `/@category\s+(.+)/` matches by
backtracking with the all-whitespace capture `" "`, which trims to `""` —
so the claimed invariant "category and chapter are always non-empty" is
false on the code. -/
theorem extractTestDocs_empty_category_cex :
    (extractTestDocs "/** */ @category  \nit(\"a\", function () \x7b\x7d);").map
        DocMetadata.category = [""]
    ∧ ((extractTestDocs "/** */ @category  \nit(\"a\", function () \x7b\x7d);").map
        DocMetadata.category).all (fun c => !(c == "")) = false := by
  constructor <;> decide

/-- C8 (amended): every extracted record's `category` and `chapter` come
from the `tagOr` idiom applied to its comment block — `"general"` when
the tag does not match, the trimmed capture otherwise — and they are
non-empty whenever the matched captures of the block trim non-empty
(`tagGood`); a tag followed only by whitespace up to the end of its block
escapes that guarantee (see the counterexample). -/
theorem docRecords_category_chapter_general (content : String) :
    (∀ r ∈ extractSolidityDocs content,
      ∃ b, b ∈ solBlocks content.data
        ∧ r.category = tagOr "general" categoryTagL b
        ∧ r.chapter = tagOr "general" chapterTagL b
        ∧ (tagGood categoryTagL b = true → r.category ≠ "")
        ∧ (tagGood chapterTagL b = true → r.chapter ≠ ""))
    ∧ (∀ r ∈ extractTestDocs content,
      ∃ b t, r = mkTestRecord b t
        ∧ r.category = tagOr "general" categoryTagL b
        ∧ r.chapter = tagOr "general" chapterTagL b
        ∧ (tagGood categoryTagL b = true → r.category ≠ "")
        ∧ (tagGood chapterTagL b = true → r.chapter ≠ "")) := by
  constructor
  · intro r hr
    obtain ⟨b, hb, hmk⟩ := List.mem_filterMap.mp hr
    obtain ⟨hcat, hchap, -, -⟩ := mkSolRecord_fields b r hmk
    refine ⟨b, hb, hcat, hchap, fun hg => ?_, fun hg => ?_⟩
    · rw [hcat]; exact tagOr_ne_empty _ _ _ hg (by decide)
    · rw [hchap]; exact tagOr_ne_empty _ _ _ hg (by decide)
  · intro r hr
    obtain ⟨b, t, rfl⟩ := testScan_mem _ _ r hr
    refine ⟨b, t, rfl, rfl, rfl, fun hg => ?_, fun hg => ?_⟩
    · exact tagOr_ne_empty _ _ _ hg (by decide)
    · exact tagOr_ne_empty _ _ _ hg (by decide)

/-- Witness for C8 (amended) on a concrete test file with a well-formed
`@category` tag, instantiated at its one extracted record. -/
theorem docRecords_category_chapter_general_witness :
    ∃ b t, (⟨"t", "basic", "general", ""⟩ : DocMetadata) = mkTestRecord b t
      ∧ (⟨"t", "basic", "general", ""⟩ : DocMetadata).category = tagOr "general" categoryTagL b
      ∧ (⟨"t", "basic", "general", ""⟩ : DocMetadata).chapter = tagOr "general" chapterTagL b
      ∧ (tagGood categoryTagL b = true → (⟨"t", "basic", "general", ""⟩ : DocMetadata).category ≠ "")
      ∧ (tagGood chapterTagL b = true → (⟨"t", "basic", "general", ""⟩ : DocMetadata).chapter ≠ "") :=
  (docRecords_category_chapter_general
    "/**\n * @category basic\n */\nit(\"t\", function () \x7b\x7d);").2
    ⟨"t", "basic", "general", ""⟩ (by decide)

/-- C6: in the line loop of `extractTestDocs`, once a comment block has
just been closed, the block yields exactly one record when the very next
line matches the test declaration pattern `it("..."` — and that record's
title is the quoted capture verbatim (not trimmed, internal spaces and
punctuation preserved, as the decomposition of the line shows) — and
yields zero records otherwise (next line matches nothing, or there is no
next line); `extractTestDocs` itself is this loop over the `"\n"`-split
lines started in the `out` state. -/
theorem extractTestDocs_adjacency (block line : List Char) (rest : List (List Char))
    (content : String) (title : List Char) :
    (hasInfixL line "it(\"".data = true → findIt line = some title →
        testScan (TScan.closed block) (line :: rest) =
          mkTestRecord block title :: testScan (openScan line) rest
        ∧ (mkTestRecord block title).name = String.mk title
        ∧ title ≠ [] ∧ '"' ∉ title
        ∧ ∃ u v, line = u ++ ['i', 't', '(', '"'] ++ (title ++ '"' :: v))
    ∧ ((findIt line = none ∨ hasInfixL line "it(\"".data = false) →
        testScan (TScan.closed block) (line :: rest) = testScan (openScan line) rest)
    ∧ testScan (TScan.closed block) [] = []
    ∧ extractTestDocs content = testScan TScan.out (splitOnCharL '\n' content.data) := by
  refine ⟨?_, ?_, rfl, rfl⟩
  · intro hinf hfind
    obtain ⟨h1, h2, u, v, hv⟩ := findIt_decomp line title hfind
    refine ⟨?_, rfl, h1, h2, u, v, hv⟩
    simp [testScan, hinf, hfind]
  · intro hcase
    rcases hcase with hf | hi
    · cases hinf : hasInfixL line "it(\"".data
      · simp [testScan, hinf]
      · simp [testScan, hinf, hf]
    · simp [testScan, hi]

/-- Witness for C6: a concrete closed block followed by a test
declaration whose quoted title has internal spaces and punctuation. -/
theorem extractTestDocs_adjacency_witness :
    testScan (TScan.closed ("/** @category basic */").data)
        [("    it(\"adds 2 + 2, correctly!\", async function () \x7b\x7d);").data] =
      mkTestRecord ("/** @category basic */").data ("adds 2 + 2, correctly!").data ::
        testScan (openScan ("    it(\"adds 2 + 2, correctly!\", async function () \x7b\x7d);").data) []
    ∧ (mkTestRecord ("/** @category basic */").data ("adds 2 + 2, correctly!").data).name
        = String.mk ("adds 2 + 2, correctly!").data
    ∧ ("adds 2 + 2, correctly!").data ≠ [] ∧ '"' ∉ ("adds 2 + 2, correctly!").data
    ∧ ∃ u v, ("    it(\"adds 2 + 2, correctly!\", async function () \x7b\x7d);").data
        = u ++ ['i', 't', '(', '"'] ++ (("adds 2 + 2, correctly!").data ++ '"' :: v) :=
  (extractTestDocs_adjacency ("/** @category basic */").data
      ("    it(\"adds 2 + 2, correctly!\", async function () \x7b\x7d);").data [] ""
      ("adds 2 + 2, correctly!").data).1 (by decide) (by decide)

/-- C9 counterexample: the function collector does NOT deduplicate.  On a
contract with two overloaded declarations of `foo`, the collected list is
`["foo", "foo"]` and the emitted markdown lists the `foo()` bullet twice —
refuting the claim that no name appears more than once in the output. -/
theorem generateAPIReference_duplicates_cex :
    apiFunctionNames ("contract C \x7b\n  function foo() public \x7b \x7d\n  function foo(uint a) public \x7b \x7d\n\x7d").data
      = ["foo".data, "foo".data]
    ∧ ("foo".data) ∈ apiFunctionNames ("contract C \x7b\n  function foo() public \x7b \x7d\n  function foo(uint a) public \x7b \x7d\n\x7d").data
    ∧ ¬ (apiFunctionNames ("contract C \x7b\n  function foo() public \x7b \x7d\n  function foo(uint a) public \x7b \x7d\n\x7d").data).Nodup
    ∧ generateAPIReference "contract C \x7b\n  function foo() public \x7b \x7d\n  function foo(uint a) public \x7b \x7d\n\x7d"
      = "# API Reference\n\n## C\n\n### Functions\n\n- `foo()`\n- `foo()`\n\n" := by
  refine ⟨by decide, by decide, by decide, by decide⟩

/-- C9 (amended): `generateAPIReference` heads the markdown with the
first identifier following the first matching `contract` keyword
(defaulting to `Contract` when the pattern never matches), then lists one
inline-code bullet per function-declaration match, in match order,
duplicates included (the source pushes every capture and does not
deduplicate); every collected name really occurs in the text as
`function<ws><name>`, and the contract display name really occurs as
`contract<ws><name>`. -/
theorem generateAPIReference_spec (content : String) :
    generateAPIReference content =
      "# API Reference\n\n" ++ "## " ++ (match contractScan content.data with
        | some n => String.mk n
        | none => "Contract") ++ "\n\n"
      ++ (if ((apiFunctionNames content.data).map String.mk).isEmpty then ""
          else "### Functions\n\n"
            ++ String.join (((apiFunctionNames content.data).map String.mk).map
                (fun fn => "- `" ++ fn ++ "()`\n")) ++ "\n")
    ∧ (∀ name ∈ apiFunctionNames content.data,
        ∃ u tw v, content.data = u ++ "function".data ++ tw ++ name ++ v
          ∧ tw ≠ [] ∧ tw.all isJsWs = true ∧ name ≠ [] ∧ name.all isWordChar = true)
    ∧ (∀ n, contractScan content.data = some n →
        ∃ u tw v, content.data = u ++ "contract".data ++ tw ++ n ++ v
          ∧ tw ≠ [] ∧ tw.all isJsWs = true ∧ n ≠ [] ∧ n.all isWordChar = true)
    ∧ (contractScan content.data = none →
        generateAPIReference content =
          "# API Reference\n\n" ++ "## " ++ "Contract" ++ "\n\n"
          ++ (if ((apiFunctionNames content.data).map String.mk).isEmpty then ""
              else "### Functions\n\n"
                ++ String.join (((apiFunctionNames content.data).map String.mk).map
                    (fun fn => "- `" ++ fn ++ "()`\n")) ++ "\n")) := by
  refine ⟨rfl, ?_, ?_, ?_⟩
  · intro name hmem
    exact fnScanF_sound _ _ _ hmem
  · intro n hn
    exact contractScan_sound _ _ hn
  · intro hnone
    simp only [generateAPIReference, hnone]

/-- Witness for C9 (amended): the soundness conjuncts applied on a
concrete contract text. -/
theorem generateAPIReference_spec_witness :
    (∃ u tw v, ("contract Foo \x7b function bar() public \x7b \x7d \x7d").data
        = u ++ "function".data ++ tw ++ "bar".data ++ v
        ∧ tw ≠ [] ∧ tw.all isJsWs = true ∧ "bar".data ≠ [] ∧ ("bar".data).all isWordChar = true)
    ∧ (∃ u tw v, ("contract Foo \x7b function bar() public \x7b \x7d \x7d").data
        = u ++ "contract".data ++ tw ++ "Foo".data ++ v
        ∧ tw ≠ [] ∧ tw.all isJsWs = true ∧ "Foo".data ≠ [] ∧ ("Foo".data).all isWordChar = true) :=
  ⟨(generateAPIReference_spec "contract Foo \x7b function bar() public \x7b \x7d \x7d").2.1
      "bar".data (by decide),
   (generateAPIReference_spec "contract Foo \x7b function bar() public \x7b \x7d \x7d").2.2.1
      "Foo".data (by decide)⟩

/-- C10 (implicit): every API-reference write of `generateDocumentation`
goes to the one fixed path `docs/api-reference.md` — one write per `.sol`
file in directory-listing order — so with several `.sol` files the file
is overwritten repeatedly and the surviving content describes exactly the
last `.sol` file in listing order (provided no extracted chapter is named
so that its chapter file collides with `api-reference.md`, in which case
the chapter write would land on the same path afterwards). -/
theorem generateDocumentation_api_overwrite (testFiles contractFiles : List SourceFile)
    (lastSol : SourceFile)
    (hlast : (contractFiles.filter (fun f => isSolFileName f.name)).getLast? = some lastSol)
    (hsafe : ∀ ch ∈ firstOccs ((collectedDocs testFiles contractFiles).map DocMetadata.chapter),
        chapterFileName ch ++ ".md" ≠ "api-reference.md") :
    (∀ w ∈ generateDocumentation testFiles contractFiles,
        w.1 = docsDirPath ++ ["api-reference.md"] →
        ∃ f, f ∈ contractFiles.filter (fun f => isSolFileName f.name)
          ∧ w.2 = generateAPIReference f.content)
    ∧ ((generateDocumentation testFiles contractFiles).filter
          (fun w => w.1 == docsDirPath ++ ["api-reference.md"])).length
        = (contractFiles.filter (fun f => isSolFileName f.name)).length
    ∧ lastWriteAt (generateDocumentation testFiles contractFiles)
        (docsDirPath ++ ["api-reference.md"])
      = some (generateAPIReference lastSol.content) := by
  have hA : ∀ w ∈ (contractFiles.filter (fun f => isSolFileName f.name)).map
      (fun f => (docsDirPath ++ ["api-reference.md"], generateAPIReference f.content)),
      w.1 = docsDirPath ++ ["api-reference.md"]
      ∧ ∃ f, f ∈ contractFiles.filter (fun f => isSolFileName f.name)
          ∧ w.2 = generateAPIReference f.content := by
    intro w hw
    obtain ⟨f, hf, rfl⟩ := List.mem_map.mp hw
    exact ⟨rfl, f, hf, rfl⟩
  have hM : ∀ w ∈ (if (collectedDocs testFiles contractFiles).isEmpty
        then ([] : List (FsPath × String))
        else generateMarkdown (collectedDocs testFiles contractFiles) docsDirPath),
      ¬ w.1 = docsDirPath ++ ["api-reference.md"] := by
    intro w hw
    split at hw
    · cases hw
    · obtain ⟨ch, hch, rfl⟩ := List.mem_map.mp hw
      intro hpath
      have h2 := List.append_cancel_left hpath
      simp only [List.cons.injEq, and_true] at h2
      exact hsafe ch hch h2
  have hfA : ((contractFiles.filter (fun f => isSolFileName f.name)).map
        (fun f => (docsDirPath ++ ["api-reference.md"], generateAPIReference f.content))).filter
        (fun w => w.1 == docsDirPath ++ ["api-reference.md"])
      = (contractFiles.filter (fun f => isSolFileName f.name)).map
        (fun f => (docsDirPath ++ ["api-reference.md"], generateAPIReference f.content)) := by
    refine List.filter_eq_self.mpr fun w hw => ?_
    have := (hA w hw).1
    simp [this]
  have hfM : ((if (collectedDocs testFiles contractFiles).isEmpty
        then ([] : List (FsPath × String))
        else generateMarkdown (collectedDocs testFiles contractFiles) docsDirPath)).filter
        (fun w => w.1 == docsDirPath ++ ["api-reference.md"]) = [] := by
    refine List.filter_eq_nil_iff.mpr fun w hw => ?_
    have := hM w hw
    simp [this]
  refine ⟨?_, ?_, ?_⟩
  · intro w hw hp
    simp only [generateDocumentation] at hw
    rcases List.mem_append.mp hw with h | h
    · exact (hA w h).2
    · exact absurd hp (hM w h)
  · simp only [generateDocumentation, List.filter_append, hfA, hfM, List.append_nil,
      List.length_map]
  · simp only [lastWriteAt, generateDocumentation, List.filter_append, hfA, hfM,
      List.append_nil, List.map_map]
    rw [List.getLast?_map]
    rw [hlast]
    rfl

/-- Witness for C10: two `.sol` files; the surviving
`docs/api-reference.md` content is the API reference of the second. -/
theorem generateDocumentation_api_overwrite_witness :
    ((generateDocumentation [] [⟨"A.sol", "contract A"⟩, ⟨"B.sol", "contract B"⟩]).filter
        (fun w => w.1 == docsDirPath ++ ["api-reference.md"])).length
      = (([⟨"A.sol", "contract A"⟩, ⟨"B.sol", "contract B"⟩] : List SourceFile).filter
          (fun f => isSolFileName f.name)).length
    ∧ lastWriteAt (generateDocumentation [] [⟨"A.sol", "contract A"⟩, ⟨"B.sol", "contract B"⟩])
        (docsDirPath ++ ["api-reference.md"])
      = some (generateAPIReference (SourceFile.mk "B.sol" "contract B").content) := by
  have h := generateDocumentation_api_overwrite []
    [⟨"A.sol", "contract A"⟩, ⟨"B.sol", "contract B"⟩]
    ⟨"B.sol", "contract B"⟩ (by decide) (by decide)
  exact ⟨h.2.1, h.2.2⟩

end FhevmHub
